import Mathlib

/-!
Verification of the RecBole/RecBox spec against the code.

Part 1 embeds `recbox/sampler/sampler.py` (the negative-item `Sampler`):
the construction of the shuffled sample pool and the per-phase cumulative
seen-item sets, the cyclic `random_item` cursor, and `sample_by_user_ids`
with its reactive `KeyError`/`IndexError` handling (numpy fancy indexing,
including negative-index aliasing).

Part 2 embeds `recbole/model/sequential_recommender/fissa.py` (the FISSA
model): loss selection at construction, the bidirectional additive
attention mask, the fusion gate `cal_final`, and the `predict` /
`full_sort_predict` scoring paths.  The `TransformerEncoder` layer stack
lives outside the provided sources and is modelled from the spec.
-/

namespace RecBox

/-- External dataset collaborator: supplies `user_num`, `item_num` and the
interaction table as raw `(user_id, item_id)` pairs (the two id columns
read by the sampler). -/
structure Dataset where
  user_num : Nat
  item_num : Nat
  inter_feat : List (Nat × Nat)
  deriving DecidableEq

/-- Item ids a user interacted with inside one dataset
(`dataset.inter_feat[iid_field]` restricted to that user). -/
def Dataset.interOf (ds : Dataset) (uid : Nat) : Finset Nat :=
  (ds.inter_feat.filter (fun p => p.1 = uid)).map Prod.snd |>.toFinset

/-- One step of the seen-set accumulation loop
(`cur[uid].add(iid)` for a single interaction row). -/
def addInter (cur : List (Finset Nat)) (p : Nat × Nat) : List (Finset Nat) :=
  cur.set p.1 (insert p.2 (cur.getD p.1 ∅))

/-- Seen sets of one phase: the previous cumulative snapshot `last` with
all of this dataset's interactions added
(the inner `for uid, iid in dataset.inter_feat[...].values` loop). -/
def phaseSeen (last : List (Finset Nat)) (ds : Dataset) : List (Finset Nat) :=
  ds.inter_feat.foldl addInter last

/-- The `for phase, dataset in zip(...)` accumulation loop, written as
structural recursion on the zipped list: `last` is the previous phase's
cumulative snapshot, and each phase stores `phaseSeen last dataset`. -/
def buildUsedAux (last : List (Finset Nat)) :
    List (String × Dataset) → List (String × List (Finset Nat))
  | [] => []
  | pd :: rest =>
    let cur := phaseSeen last pd.2
    (pd.1, cur) :: buildUsedAux cur rest

/-- The `self.used_item_id` dict: for each phase, in declaration order,
the cumulative per-user seen sets (each phase starts from a copy of the
previous phase's sets, initially `[set() for i in range(n_users)]`). -/
def buildUsed (nUsers : Nat) (phases : List String) (datasets : List Dataset) :
    List (String × List (Finset Nat)) :=
  buildUsedAux (List.replicate nUsers ∅) (phases.zip datasets)

/-- The pre-shuffle uniform pool `list(range(self.n_items))`. -/
def uniformPool (nItems : Nat) : List Nat :=
  List.range nItems

/-- The pre-shuffle popularity pool: the concatenation of each configured
dataset's item-id column (`random_item_list.extend(...)` loop). -/
def popularityPool (datasets : List Dataset) : List Nat :=
  datasets.foldl (fun acc ds => acc ++ ds.inter_feat.map Prod.snd) []

/-- The sampler state after `Sampler.__init__`: the shuffled pool, the
persistent cursor `random_pr`, and the per-phase cumulative seen sets. -/
structure SamplerState where
  nUsers : Nat
  nItems : Nat
  phases : List String
  pool : List Nat
  randomPr : Nat
  usedItemId : List (String × List (Finset Nat))
  deriving DecidableEq

/-- `Sampler.__init__`: validate the distribution name and the
phase/dataset lengths, build the pool for the distribution, shuffle it
(the random permutation is supplied as the `shuffle` argument), set the
cursor to 0 and build the cumulative seen sets. -/
def mkSampler (phases : List String) (datasets : List Dataset)
    (distribution : String) (shuffle : List Nat → List Nat) :
    Except String SamplerState :=
  if distribution ≠ "uniform" ∧ distribution ≠ "popularity" then
    .error ("Distribution [" ++ distribution ++ "] should in [uniform, popularity]")
  else if phases.length ≠ datasets.length then
    .error "phases and datasets should have the same length"
  else
    let nUsers := (datasets.headD ⟨0, 0, []⟩).user_num
    let nItems := (datasets.headD ⟨0, 0, []⟩).item_num
    let basePool := if distribution = "uniform" then uniformPool nItems
                    else popularityPool datasets
    .ok { nUsers := nUsers
          nItems := nItems
          phases := phases
          pool := shuffle basePool
          randomPr := 0
          usedItemId := buildUsed nUsers phases datasets }

/-- The item the `t`-th call to `random_item` returns when the cursor
starts at `pr`: `random_item_list[(pr + t) % len]`. -/
def drawAt (pool : List Nat) (pr t : Nat) : Nat :=
  pool.getD ((pr + t) % pool.length) 0

/-- One run of the `while cur in used_item_id` resampling loop: scan the
cyclic pool from cursor `pr` for the first entry outside `seen`; return
it together with the advanced cursor.  The scan is bounded by the pool
length because the drawn values repeat with that period; `none` means the
Python loop never terminates. -/
def drawOne (pool : List Nat) (pr : Nat) (seen : Finset Nat) : Option (Nat × Nat) :=
  match (List.range pool.length).find? (fun t => decide (drawAt pool pr t ∉ seen)) with
  | some t => some (drawAt pool pr t, pr + t + 1)
  | none => none

/-- The `for i, used_item_id in enumerate(used_item_id_list)` loop: one
resampling run per entry, threading the shared cursor. -/
def drawLoop (pool : List Nat) (seens : List (Finset Nat)) (pr : Nat) :
    Option (List Nat × Nat) :=
  match seens with
  | [] => some ([], pr)
  | seen :: rest =>
    match drawOne pool pr seen with
    | none => none
    | some (item, pr') =>
      match drawLoop pool rest pr' with
      | none => none
      | some (items, pr'') => some (item :: items, pr'')

/-- Numpy fancy indexing `arr[user_ids]` on an array of length `n`:
an index `i` is valid iff `-n ≤ i < n`, a negative valid index aliases to
`n + i`; any invalid index raises `IndexError` (modelled as `none`). -/
def npIndex (n : Nat) (arr : List (Finset Nat)) : List Int →
    Option (List (Finset Nat))
  | [] => some []
  | i :: rest =>
    if -(n : Int) ≤ i ∧ i < n then
      match npIndex n arr rest with
      | none => none
      | some l => some (arr.getD (if i < 0 then i + n else i).toNat ∅ :: l)
    else none

/-- `np.repeat(xs, num)`: each element repeated `num` times consecutively. -/
def npRepeat (xs : List (Finset Nat)) (num : Nat) : List (Finset Nat) :=
  (xs.map (List.replicate num)).flatten

/-- The observable outcomes of `sample_by_user_ids`: a normal return of
the negative ids and the updated sampler state, a raised `ValueError`, a
fall-through `return None` from an except branch, or a non-terminating
resampling loop. -/
inductive SampleResult where
  | ok (items : List Nat) (s : SamplerState)
  | errPhaseNotExist (phase : String)
  | errUserIdNotExist (userId : Int)
  | retNone
  | diverge
  deriving DecidableEq

/-- Normal-return ids of a `SampleResult` (empty for the other outcomes). -/
def SampleResult.items : SampleResult → List Nat
  | .ok items _ => items
  | _ => []

/-- Whether a `SampleResult` is a raised `ValueError`. -/
def SampleResult.isErr : SampleResult → Bool
  | .errPhaseNotExist _ => true
  | .errUserIdNotExist _ => true
  | _ => false

/-- `Sampler.sample_by_user_ids(phase, user_ids, num)`, with the source's
reactive error handling: a `KeyError` from `self.used_item_id[phase]` is
turned into a `ValueError` when the phase is undeclared; an `IndexError`
from the numpy indexing is turned into a `ValueError` naming the first
user id outside `[0, n_users)`; when an except branch does not re-raise,
the function returns `None`. -/
def sampleByUserIds (s : SamplerState) (phase : String) (userIds : List Int)
    (num : Nat) : SampleResult :=
  match (s.usedItemId.lookup phase) with
  | none =>
    if phase ∈ s.phases then .retNone else .errPhaseNotExist phase
  | some arr =>
    match npIndex s.nUsers arr userIds with
    | none =>
      match userIds.find? (fun i => decide (i < 0 ∨ (s.nUsers : Int) ≤ i)) with
      | some j => .errUserIdNotExist j
      | none => .retNone
    | some seenList =>
      match drawLoop s.pool (npRepeat seenList num) s.randomPr with
      | none => .diverge
      | some (items, pr') => .ok items { s with randomPr := pr' }

end RecBox

namespace RecBole

/-- The two loss strategies FISSA supports: pairwise BPR and listwise
cross-entropy. -/
inductive LossFct where
  | bpr
  | ce
  deriving DecidableEq

/-- The model state relevant to loss selection: `self.loss_fct` chosen in
`FISSA.__init__` and never reassigned afterwards. -/
structure FissaModel where
  lossFct : LossFct
  deriving DecidableEq

/-- The loss-selection branch of `FISSA.__init__`: `BPR` and `CE` choose
the corresponding loss, anything else raises `NotImplementedError`
during construction, before any layer is built or any forward pass runs. -/
def mkFissa (lossType : String) : Except String FissaModel :=
  if lossType = "BPR" then .ok { lossFct := .bpr }
  else if lossType = "CE" then .ok { lossFct := .ce }
  else .error "Make sure loss_type in [BPR, CE]!"

/-- The per-position additive attention bias
`(1.0 - (item_seq > 0).long()) * -10000.0`. -/
noncomputable def attnBias (id : Nat) : ℝ :=
  (1 - (if 0 < id then (1 : ℝ) else 0)) * (-10000)

/-- `FISSA.get_attention_mask`: the `[B, L]` bias tensor unsqueezed to
`[B, 1, 1, L]`, so broadcasting repeats the same per-key-position bias
over every head `h` and every query position `q`. -/
noncomputable def getAttentionMask {B L : ℕ} (itemSeq : Fin B → Fin L → ℕ)
    (H : ℕ) (b : Fin B) (_h : Fin H) (_q : Fin L) (j : Fin L) : ℝ :=
  attnBias (itemSeq b j)

/-- The numerically exact sigmoid applied by `self.gating_sig`. -/
noncomputable def sigmoid (x : ℝ) : ℝ :=
  1 / (1 + Real.exp (-x))

/-- `torch.cat` of two feature vectors along the feature dimension. -/
def cat2 {m n : ℕ} (u : Fin m → ℝ) (v : Fin n → ℝ) : Fin (m + n) → ℝ :=
  Fin.addCases u v

/-- The learned gate `self.gating_lr`: a `Linear(3 * D, 1)` layer. -/
structure GateParams (D : ℕ) where
  weight : Fin (D + D + D) → ℝ
  bias : ℝ

/-- `self.gating_sig(self.gating_lr(input))` on one `3 * D` input row. -/
noncomputable def gateValue {D : ℕ} (p : GateParams D)
    (input : Fin (D + D + D) → ℝ) : ℝ :=
  sigmoid (∑ i, p.weight i * input i + p.bias)

/-- `FISSA.cal_final`: concatenate `last_embedding` and `seq_y`, repeat
across the `C` candidates, concatenate each candidate's embedding, gate
through `gating_lr` + sigmoid, and mix `seq_x * g + seq_y * (1 - g)`.
Entry `(b, c, d)` of the `[B, C, D]` output. -/
noncomputable def calFinal {B C D : ℕ} (p : GateParams D)
    (seq_x seq_y last : Fin B → Fin D → ℝ)
    (cand : Fin B → Fin C → Fin D → ℝ) (b : Fin B) (c : Fin C) (d : Fin D) : ℝ :=
  let isg := cat2 (cat2 (last b) (seq_y b)) (cand b c)
  let g := gateValue p isg
  seq_x b d * g + seq_y b d * (1 - g)

/-- `FISSA.predict`: score the single test item of each row.  `fwd` is
`self.forward` (deterministic in evaluation mode, dropout disabled);
`lastIdx` is the gather index `item_seq_len - 1`; the candidate tensor is
`item_embedding(test_item).unsqueeze(1)` (`C = 1`), and the score is the
dot product of `cal_final`'s output with that embedding. -/
noncomputable def predictScore {B L D N : ℕ} (p : GateParams D)
    (fwd : (Fin B → Fin L → Fin N) → (Fin B → Fin L) →
      (Fin B → Fin D → ℝ) × (Fin B → Fin D → ℝ))
    (itemEmb : Fin N → Fin D → ℝ) (itemSeq : Fin B → Fin L → Fin N)
    (lastIdx : Fin B → Fin L) (testItem : Fin B → Fin N) (b : Fin B) : ℝ :=
  let lastEmb := fun b' => itemEmb (itemSeq b' (lastIdx b'))
  let xy := fwd itemSeq lastIdx
  let cand : Fin B → Fin 1 → Fin D → ℝ := fun b' _ => itemEmb (testItem b')
  ∑ d, calFinal p xy.1 xy.2 lastEmb cand b 0 d * itemEmb (testItem b) d

/-- `FISSA.full_sort_predict`: score every item of the catalog.  The
candidate tensor is the whole embedding table repeated per row
(`item_embedding.weight.unsqueeze(0).repeat(B, 1, 1)`); entry `(b, i)` of
the `[B, n_items]` score matrix. -/
noncomputable def fullSortScores {B L D N : ℕ} (p : GateParams D)
    (fwd : (Fin B → Fin L → Fin N) → (Fin B → Fin L) →
      (Fin B → Fin D → ℝ) × (Fin B → Fin D → ℝ))
    (itemEmb : Fin N → Fin D → ℝ) (itemSeq : Fin B → Fin L → Fin N)
    (lastIdx : Fin B → Fin L) (b : Fin B) (i : Fin N) : ℝ :=
  let lastEmb := fun b' => itemEmb (itemSeq b' (lastIdx b'))
  let xy := fwd itemSeq lastIdx
  let cand : Fin B → Fin N → Fin D → ℝ := fun _ i' => itemEmb i'
  ∑ d, calFinal p xy.1 xy.2 lastEmb cand b i d * itemEmb i d

/-- Mean of a feature vector (over the embedding dimension). -/
noncomputable def vecMean {D : ℕ} (x : Fin D → ℝ) : ℝ :=
  (∑ d, x d) / D

/-- Population variance of a feature vector. -/
noncomputable def vecVar {D : ℕ} (x : Fin D → ℝ) : ℝ :=
  (∑ d, (x d - vecMean x) ^ 2) / D

/-- `nn.LayerNorm` over the embedding dimension with affine parameters. -/
noncomputable def layerNorm {D : ℕ} (γ β : Fin D → ℝ) (ε : ℝ)
    (x : Fin D → ℝ) (d : Fin D) : ℝ :=
  γ d * ((x d - vecMean x) / Real.sqrt (vecVar x + ε)) + β d

/-- Softmax over the key positions of a score vector. -/
noncomputable def softmaxVec {L : ℕ} (s : Fin L → ℝ) (j : Fin L) : ℝ :=
  Real.exp (s j) / ∑ k, Real.exp (s k)

/-- Modelled from the spec: the parameters of one layer of the
`TransformerEncoder` (`recbole.model.layers`, not among the provided
sources) — per-head query/key/value projections (`H` heads of head
dimension `dh`), the output projection, and the position-wise
feed-forward sublayer of inner width `F`. -/
structure EncoderLayerParams (H dh D F : ℕ) where
  wq : Fin H → Fin dh → Fin D → ℝ
  wk : Fin H → Fin dh → Fin D → ℝ
  wv : Fin H → Fin dh → Fin D → ℝ
  wo : Fin D → Fin H → Fin dh → ℝ
  w1 : Fin F → Fin D → ℝ
  b1 : Fin F → ℝ
  w2 : Fin D → Fin F → ℝ
  b2 : Fin D → ℝ

/-- Dot product of two feature vectors. -/
noncomputable def dotProd {n : ℕ} (u v : Fin n → ℝ) : ℝ :=
  ∑ i, u i * v i

/-- Modelled from the spec: the additive-mask scaled dot-product scores of
one attention head at query position `i`. -/
noncomputable def attnScore {H dh D F L : ℕ} (p : EncoderLayerParams H dh D F)
    (h : Fin H) (x : Fin L → Fin D → ℝ) (mask : Fin L → ℝ)
    (i j : Fin L) : ℝ :=
  dotProd (fun e => dotProd (p.wq h e) (x i)) (fun e => dotProd (p.wk h e) (x j))
    / Real.sqrt dh + mask j

/-- Modelled from the spec: one attention head's context vector at query
position `i` — softmax of the masked scores against the value vectors. -/
noncomputable def attnHead {H dh D F L : ℕ} (p : EncoderLayerParams H dh D F)
    (h : Fin H) (x : Fin L → Fin D → ℝ) (mask : Fin L → ℝ)
    (i : Fin L) (e : Fin dh) : ℝ :=
  ∑ j, softmaxVec (attnScore p h x mask i) j * dotProd (p.wv h e) (x j)

/-- Modelled from the spec: multi-head attention output — the heads'
context vectors combined by the output projection. -/
noncomputable def mhaOut {H dh D F L : ℕ} (p : EncoderLayerParams H dh D F)
    (x : Fin L → Fin D → ℝ) (mask : Fin L → ℝ) (i : Fin L) (d : Fin D) : ℝ :=
  ∑ h, ∑ e, p.wo d h e * attnHead p h x mask i e

/-- Modelled from the spec: the position-wise feed-forward sublayer with
activation `act`. -/
noncomputable def ffnOut {H dh D F : ℕ} (p : EncoderLayerParams H dh D F)
    (act : ℝ → ℝ) (u : Fin D → ℝ) (d : Fin D) : ℝ :=
  p.b2 d + ∑ f, p.w2 d f * act (p.b1 f + ∑ d', p.w1 f d' * u d')

/-- Modelled from the spec: one encoder layer — attention with the
additive mask plus residual, then the feed-forward sublayer plus
residual. -/
noncomputable def encoderLayer {H dh D F L : ℕ} (p : EncoderLayerParams H dh D F)
    (act : ℝ → ℝ) (mask : Fin L → ℝ) (x : Fin L → Fin D → ℝ)
    (i : Fin L) (d : Fin D) : ℝ :=
  (x i d + mhaOut p x mask i d) +
    ffnOut p act (fun d' => x i d' + mhaOut p x mask i d') d

/-- Modelled from the spec: the `n_layers`-deep encoder stack, the same
additive mask injected into every layer. -/
noncomputable def encoderStack {H dh D F L : ℕ}
    (ps : List (EncoderLayerParams H dh D F)) (act : ℝ → ℝ)
    (mask : Fin L → ℝ) (x : Fin L → Fin D → ℝ) : Fin L → Fin D → ℝ :=
  ps.foldl (fun x' q => fun i d => encoderLayer q act mask x' i d) x

/-- The data `FISSA.forward` needs to produce `x_l` for one sequence:
embedding tables, input layer norm, and the encoder layers (the
similarity branch `y` does not enter `x_l`).  Dropout is disabled
(evaluation mode). -/
structure ForwardParams (N L D H dh F : ℕ) where
  itemEmb : Fin N → Fin D → ℝ
  posEmb : Fin L → Fin D → ℝ
  lnGamma : Fin D → ℝ
  lnBeta : Fin D → ℝ
  lnEps : ℝ
  layers : List (EncoderLayerParams H dh D F)
  act : ℝ → ℝ

/-- The `x_l` component of `FISSA.forward` on one sequence: item plus
positional embeddings, input layer norm (dropout disabled), the encoder
stack under the additive mask of `get_attention_mask`, and the gather at
index `item_seq_len - 1` (`lastIdx`). -/
noncomputable def forwardXl {N L D H dh F : ℕ} (P : ForwardParams N L D H dh F)
    (itemSeq : Fin L → Fin N) (lastIdx : Fin L) : Fin D → ℝ :=
  let emb := fun (j : Fin L) (d : Fin D) => P.itemEmb (itemSeq j) d + P.posEmb j d
  let inp := fun (j : Fin L) => layerNorm P.lnGamma P.lnBeta P.lnEps (emb j)
  let mask := fun (j : Fin L) => attnBias (itemSeq j)
  encoderStack P.layers P.act mask inp lastIdx

/-- Hard-masked attention weights: a masked position receives weight
exactly `0`, and the softmax renormalizes over the attendable positions
only.  This is the idealized masking (additive bias `-∞`) that the
actual additive `-10000` bias only approximates. -/
noncomputable def hardWeights {L : ℕ} (att : Fin L → Bool) (s : Fin L → ℝ)
    (j : Fin L) : ℝ :=
  if att j then Real.exp (s j) / ∑ k, (if att k then Real.exp (s k) else 0) else 0

/-- Hard-masked scaled dot-product scores (no additive bias; masked
positions are excluded by `hardWeights` instead). -/
noncomputable def hardScore {H dh D F L : ℕ} (p : EncoderLayerParams H dh D F)
    (h : Fin H) (x : Fin L → Fin D → ℝ) (i j : Fin L) : ℝ :=
  dotProd (fun e => dotProd (p.wq h e) (x i)) (fun e => dotProd (p.wk h e) (x j))
    / Real.sqrt dh

/-- Hard-masked attention head. -/
noncomputable def hardAttnHead {H dh D F L : ℕ} (p : EncoderLayerParams H dh D F)
    (h : Fin H) (att : Fin L → Bool) (x : Fin L → Fin D → ℝ)
    (i : Fin L) (e : Fin dh) : ℝ :=
  ∑ j, hardWeights att (hardScore p h x i) j * dotProd (p.wv h e) (x j)

/-- Hard-masked multi-head attention output. -/
noncomputable def hardMhaOut {H dh D F L : ℕ} (p : EncoderLayerParams H dh D F)
    (att : Fin L → Bool) (x : Fin L → Fin D → ℝ) (i : Fin L) (d : Fin D) : ℝ :=
  ∑ h, ∑ e, p.wo d h e * hardAttnHead p h att x i e

/-- Hard-masked encoder layer. -/
noncomputable def hardEncoderLayer {H dh D F L : ℕ} (p : EncoderLayerParams H dh D F)
    (act : ℝ → ℝ) (att : Fin L → Bool) (x : Fin L → Fin D → ℝ)
    (i : Fin L) (d : Fin D) : ℝ :=
  (x i d + hardMhaOut p att x i d) +
    ffnOut p act (fun d' => x i d' + hardMhaOut p att x i d') d

/-- Hard-masked encoder stack. -/
noncomputable def hardEncoderStack {H dh D F L : ℕ}
    (ps : List (EncoderLayerParams H dh D F)) (act : ℝ → ℝ)
    (att : Fin L → Bool) (x : Fin L → Fin D → ℝ) : Fin L → Fin D → ℝ :=
  ps.foldl (fun x' q => fun i d => hardEncoderLayer q act att x' i d) x

/-- A concrete one-layer, one-head instance (`D = 2`, `dh = 2`, `F = 1`):
zero query/key projections, identity value and output projections, zero
feed-forward weights, unit layer-norm affine parameters, `ε = 0`. -/
noncomputable def cexLayer : EncoderLayerParams 1 2 2 1 where
  wq := fun _ _ _ => 0
  wk := fun _ _ _ => 0
  wv := fun _ e d' => if e = d' then 1 else 0
  wo := fun d _ e => if d = e then 1 else 0
  w1 := fun _ _ => 0
  b1 := fun _ => 0
  w2 := fun _ _ => 0
  b2 := fun _ => 0

/-- A concrete forward configuration over a 3-item catalog (`L = 2`):
padding row `0` is the zero vector as `padding_idx = 0` forces, item 1
embeds to `(1, -1)`, item 2 to `(-2, 2)`; position 0 embeds to `(0, 0)`
and position 1 to `(1, -1)`. -/
noncomputable def cexParams : ForwardParams 3 2 2 1 2 1 where
  itemEmb := ![![0, 0], ![1, -1], ![-2, 2]]
  posEmb := ![![0, 0], ![1, -1]]
  lnGamma := ![1, 1]
  lnBeta := ![0, 0]
  lnEps := 0
  layers := [cexLayer]
  act := id

end RecBole

namespace RecBox

theorem drawAt_mem (pool : List Nat) (pr t : Nat) (h : pool ≠ []) :
    drawAt pool pr t ∈ pool := by
  have hl : 0 < pool.length := List.length_pos.mpr h
  have hlt : (pr + t) % pool.length < pool.length := Nat.mod_lt _ hl
  rw [drawAt, List.getD_eq_getElem _ _ hlt]
  exact List.getElem_mem hlt

theorem exists_cycle_hit (len pr j : Nat) (hlen : 0 < len) (hj : j < len) :
    ∃ t < len, (pr + t) % len = j := by
  refine ⟨(j + len - pr % len) % len, Nat.mod_lt _ hlen, ?_⟩
  have hr : pr % len < len := Nat.mod_lt _ hlen
  rw [← Nat.mod_add_mod, Nat.add_mod_mod]
  have heq : pr % len + (j + len - pr % len) = j + len := by omega
  rw [heq, Nat.add_mod_right, Nat.mod_eq_of_lt hj]

theorem drawOne_some (pool : List Nat) (pr : Nat) (seen : Finset Nat)
    (h : ∃ x ∈ pool, x ∉ seen) :
    ∃ t item, t < pool.length ∧ drawOne pool pr seen = some (item, pr + t + 1) ∧
      item ∉ seen ∧ item ∈ pool := by
  obtain ⟨x, hx, hxs⟩ := h
  have hne : pool ≠ [] := by rintro rfl; simp at hx
  have hlen : 0 < pool.length := List.length_pos.mpr hne
  obtain ⟨j, hj, hxj⟩ := List.mem_iff_getElem.mp hx
  obtain ⟨t, ht, hmod⟩ := exists_cycle_hit pool.length pr j hlen hj
  have hpt : decide (drawAt pool pr t ∉ seen) = true := by
    rw [drawAt, hmod, List.getD_eq_getElem _ _ hj, hxj]
    simpa using hxs
  have hsome : ((List.range pool.length).find?
      (fun t' => decide (drawAt pool pr t' ∉ seen))).isSome := by
    rw [List.find?_isSome]
    exact ⟨t, List.mem_range.mpr ht, hpt⟩
  obtain ⟨t₀, ht₀⟩ := Option.isSome_iff_exists.mp hsome
  have ht₀mem : t₀ ∈ List.range pool.length := List.mem_of_find?_eq_some ht₀
  have ht₀p : drawAt pool pr t₀ ∉ seen := by
    have := List.find?_some ht₀
    simpa using this
  refine ⟨t₀, drawAt pool pr t₀, List.mem_range.mp ht₀mem, ?_, ht₀p,
    drawAt_mem pool pr t₀ hne⟩
  rw [drawOne, ht₀]

theorem drawOne_none (pool : List Nat) (pr : Nat) (seen : Finset Nat)
    (h : ∀ x ∈ pool, x ∈ seen) (hne : pool ≠ []) :
    (∀ t, drawAt pool pr t ∈ seen) ∧ drawOne pool pr seen = none := by
  have hall : ∀ t, drawAt pool pr t ∈ seen :=
    fun t => h _ (drawAt_mem pool pr t hne)
  refine ⟨hall, ?_⟩
  rw [drawOne]
  have : (List.range pool.length).find?
      (fun t' => decide (drawAt pool pr t' ∉ seen)) = none := by
    rw [List.find?_eq_none]
    intro t _
    simpa using hall t
  rw [this]

/-- Claim C3: whenever the cumulative seen set of a requested `(user,
phase)` pair leaves some pool entry unseen, the resample-on-collision
loop terminates — it consumes finitely many pool entries (at most one
full cycle) and returns an unseen pool item; when the seen set covers
every pool entry, every draw the loop will ever make is seen, so the
`while` loop never terminates (`drawOne` yields no result). -/
theorem C3_resample_termination (pool : List Nat) (pr : Nat) (seen : Finset Nat) :
    ((∃ x ∈ pool, x ∉ seen) →
      ∃ t item, t < pool.length ∧ drawOne pool pr seen = some (item, pr + t + 1) ∧
        item ∉ seen ∧ item ∈ pool) ∧
    (pool ≠ [] → (∀ x ∈ pool, x ∈ seen) →
      (∀ t, drawAt pool pr t ∈ seen) ∧ drawOne pool pr seen = none) := by
  exact ⟨drawOne_some pool pr seen, fun hne h => drawOne_none pool pr seen h hne⟩

/-- Witness for C3 at a concrete pool: pool `[0, 1, 2]`, cursor `1`,
seen set `{0, 1}` for the terminating conjunct, and seen set `{0, 1, 2}`
for the diverging conjunct. -/
theorem C3_witness :
    (∃ x ∈ [0, 1, 2], x ∉ ({0, 1} : Finset Nat)) ∧
    (∃ t item, t < 3 ∧ drawOne [0, 1, 2] 1 {0, 1} = some (item, 1 + t + 1) ∧
      item ∉ ({0, 1} : Finset Nat) ∧ item ∈ [0, 1, 2]) ∧
    ((∀ t, drawAt [0, 1, 2] 1 t ∈ ({0, 1, 2} : Finset Nat)) ∧
      drawOne [0, 1, 2] 1 {0, 1, 2} = none) := by
  refine ⟨by decide, ?_, ?_⟩
  · exact (C3_resample_termination [0, 1, 2] 1 {0, 1}).1 (by decide)
  · exact (C3_resample_termination [0, 1, 2] 1 {0, 1, 2}).2 (by decide) (by decide)

theorem drawLoop_some (pool : List Nat) (seens : List (Finset Nat)) (pr : Nat)
    (h : ∀ seen ∈ seens, ∃ x ∈ pool, x ∉ seen) :
    ∃ items pr', drawLoop pool seens pr = some (items, pr') ∧
      items.length = seens.length ∧
      ∀ m, m < seens.length →
        items.getD m 0 ∉ seens.getD m ∅ ∧ items.getD m 0 ∈ pool := by
  induction seens generalizing pr with
  | nil =>
    exact ⟨[], pr, rfl, rfl, fun m hm => absurd hm (by simp)⟩
  | cons seen rest ih =>
    obtain ⟨t, item, _, hdraw, hitem, hmem⟩ :=
      drawOne_some pool pr seen (h seen (by simp))
    obtain ⟨items, pr', hloop, hlen, hprop⟩ :=
      ih (pr + t + 1) (fun s hs => h s (by simp [hs]))
    refine ⟨item :: items, pr', ?_, by simp [hlen], ?_⟩
    · simp only [drawLoop, hdraw, hloop]
    · intro m hm
      cases m with
      | zero => simpa using ⟨hitem, hmem⟩
      | succ m =>
        simp only [List.getD_cons_succ]
        exact hprop m (by simpa using hm)

theorem npRepeat_length (xs : List (Finset Nat)) (num : Nat) :
    (npRepeat xs num).length = xs.length * num := by
  induction xs with
  | nil => simp [npRepeat]
  | cons x xs ih =>
    simp only [npRepeat, List.map_cons, List.flatten_cons, List.length_append,
      List.length_replicate, List.length_cons] at ih ⊢
    rw [ih, Nat.succ_mul, Nat.add_comm]

theorem npRepeat_getD (xs : List (Finset Nat)) (num u j : Nat)
    (hu : u < xs.length) (hj : j < num) :
    (npRepeat xs num).getD (u * num + j) ∅ = xs.getD u ∅ := by
  induction xs generalizing u with
  | nil => simp at hu
  | cons x xs ih =>
    cases u with
    | zero =>
      simp only [npRepeat, List.map_cons, List.flatten_cons, Nat.zero_mul,
        Nat.zero_add, List.getD_cons_zero]
      rw [List.getD_append _ _ _ _ (by simpa using hj),
        List.getD_eq_getElem _ _ (by simpa using hj)]
      simp
    | succ u =>
      simp only [npRepeat, List.map_cons, List.flatten_cons, List.getD_cons_succ]
      have hidx : (u + 1) * num + j = (List.replicate num x).length + (u * num + j) := by
        simp [Nat.succ_mul]; omega
      rw [hidx, List.getD_append_right _ _ _ _ (Nat.le_add_right _ _), Nat.add_sub_cancel_left]
      exact ih u (by simpa using hu)

theorem npIndex_some_of_valid (n : Nat) (arr : List (Finset Nat)) (ids : List Int)
    (h : ∀ i ∈ ids, 0 ≤ i ∧ i < (n : Int)) :
    npIndex n arr ids = some (ids.map (fun i => arr.getD i.toNat ∅)) := by
  induction ids with
  | nil => rfl
  | cons i ids ih =>
    obtain ⟨h0, hn⟩ := h i (by simp)
    have hcond : -(n : Int) ≤ i ∧ i < n := ⟨le_trans (by simp) h0, hn⟩
    have hneg : ¬ (i < 0) := not_lt.mpr h0
    rw [npIndex, if_pos hcond, ih (fun i' hi' => h i' (by simp [hi']))]
    simp [hneg]

theorem npIndex_eq_none (n : Nat) (arr : List (Finset Nat)) (ids : List Int) :
    npIndex n arr ids = none ↔ ∃ i ∈ ids, ¬(-(n : Int) ≤ i ∧ i < n) := by
  induction ids with
  | nil => simp [npIndex]
  | cons i ids ih =>
    rw [npIndex]
    by_cases hc : -(n : Int) ≤ i ∧ i < n
    · rw [if_pos hc]
      constructor
      · intro hnone
        cases hrec : npIndex n arr ids with
        | none =>
          obtain ⟨a, ha, hpa⟩ := ih.mp hrec
          exact ⟨a, by simp [ha], hpa⟩
        | some l => rw [hrec] at hnone; exact absurd hnone (by simp)
      · rintro ⟨a, ha, hpa⟩
        rcases List.mem_cons.mp ha with rfl | ha'
        · exact absurd hc hpa
        · rw [ih.mpr ⟨a, ha', hpa⟩]
    · rw [if_neg hc]
      exact ⟨fun _ => ⟨i, by simp, hc⟩, fun _ => rfl⟩

/-- Claim C1 (amended): for every valid call — declared phase, all user
ids in `[0, n_users)`, pool entries inside `[0, n_items)`, and each
requested user leaving at least one pool entry unseen — the sample
succeeds, the returned array has length `len(user_ids) * num`, and the
id at slot `u * num + j` is in `[0, n_items)` and outside the `u`-th
requested user's cumulative seen set for that phase.  The claim's
further assertion that no returned id equals the padding id `0` is false
on the code (the uniform pool contains `0` and nothing filters it), so it
is dropped; in the claim's own scenario the returned ids are drawn from
`{0, 3, 4}`, not `{3, 4}` — see the counterexample. -/
theorem C1_amended_sample (s : SamplerState) (phase : String) (userIds : List Int)
    (num : Nat) (arr : List (Finset Nat))
    (hphase : s.usedItemId.lookup phase = some arr)
    (huser : ∀ i ∈ userIds, 0 ≤ i ∧ i < (s.nUsers : Int))
    (hpool : ∀ x ∈ s.pool, x < s.nItems)
    (hunseen : ∀ i ∈ userIds, ∃ x ∈ s.pool, x ∉ arr.getD i.toNat ∅) :
    ∃ items s', sampleByUserIds s phase userIds num = .ok items s' ∧
      items.length = userIds.length * num ∧
      ∀ u j, u < userIds.length → j < num →
        items.getD (u * num + j) 0 < s.nItems ∧
        items.getD (u * num + j) 0 ∉ arr.getD (userIds.getD u 0).toNat ∅ := by
  have hseens : ∀ seen ∈ npRepeat (userIds.map (fun i => arr.getD i.toNat ∅)) num,
      ∃ x ∈ s.pool, x ∉ seen := by
    intro seen hseen
    rw [npRepeat, List.mem_flatten] at hseen
    obtain ⟨l, hl, hseenl⟩ := hseen
    rw [List.mem_map] at hl
    obtain ⟨seen', hseen', rfl⟩ := hl
    rw [List.mem_map] at hseen'
    obtain ⟨i, hi, rfl⟩ := hseen'
    rw [List.eq_of_mem_replicate hseenl]
    exact hunseen i hi
  obtain ⟨items, pr', hloop, hlen, hprop⟩ :=
    drawLoop_some s.pool (npRepeat (userIds.map (fun i => arr.getD i.toNat ∅)) num)
      s.randomPr hseens
  refine ⟨items, { s with randomPr := pr' }, ?_, ?_, ?_⟩
  · rw [sampleByUserIds, hphase]
    simp only [npIndex_some_of_valid s.nUsers arr userIds huser, hloop]
  · rw [hlen, npRepeat_length, List.length_map]
  · intro u j hu hj
    have hulen : u < (userIds.map (fun i => arr.getD i.toNat ∅)).length := by
      simpa using hu
    have hm : u * num + j < (npRepeat (userIds.map (fun i => arr.getD i.toNat ∅)) num).length := by
      rw [npRepeat_length, List.length_map]
      calc u * num + j < (u + 1) * num := by rw [Nat.succ_mul]; omega
        _ ≤ userIds.length * num := Nat.mul_le_mul_right num hu
    obtain ⟨hnot, hmem⟩ := hprop (u * num + j) hm
    refine ⟨hpool _ hmem, ?_⟩
    have hrep := npRepeat_getD (userIds.map (fun i => arr.getD i.toNat ∅)) num u j hulen hj
    rw [hrep] at hnot
    have hmap : (userIds.map (fun i => arr.getD i.toNat ∅)).getD u ∅ =
        arr.getD (userIds.getD u 0).toNat ∅ := by
      rw [List.getD_eq_getElem _ _ hulen, List.getElem_map,
        List.getD_eq_getElem _ _ hu]
    rwa [hmap] at hnot

/-- Counterexample to claim C1 as stated: in the claim's own scenario —
`n_items = 5`, `n_users = 2`, uniform distribution, user 0's cumulative
train seen set `{1, 2}` — `sample_by_user_ids("train", [0], 3)` returns
`[0, 3, 4]` (for the identity shuffle): the padding id `0` is returned,
so the ids are not all drawn from `{3, 4}` and a returned id equals `0`. -/
theorem C1_counterexample :
    (mkSampler ["train"] [⟨2, 5, [(0, 1), (0, 2)]⟩] "uniform" (fun l => l)).toOption =
      some { nUsers := 2, nItems := 5, phases := ["train"],
             pool := [0, 1, 2, 3, 4], randomPr := 0,
             usedItemId := [("train", [insert 2 (insert 1 ∅), ∅])] } ∧
    (sampleByUserIds
      { nUsers := 2, nItems := 5, phases := ["train"],
        pool := [0, 1, 2, 3, 4], randomPr := 0,
        usedItemId := [("train", [insert 2 (insert 1 ∅), ∅])] }
      "train" [0] 3).items = [0, 3, 4] ∧
    0 ∈ (sampleByUserIds
      { nUsers := 2, nItems := 5, phases := ["train"],
        pool := [0, 1, 2, 3, 4], randomPr := 0,
        usedItemId := [("train", [insert 2 (insert 1 ∅), ∅])] }
      "train" [0] 3).items ∧
    (0 : Nat) ∉ ({3, 4} : Finset Nat) := by
  exact ⟨by rfl, by decide, by decide, by decide⟩

/-- Witness for the amended C1 at the claim's scenario sampler. -/
theorem C1_witness :
    (SamplerState.usedItemId
        { nUsers := 2, nItems := 5, phases := ["train"],
          pool := [0, 1, 2, 3, 4], randomPr := 0,
          usedItemId := [("train", [insert 2 (insert 1 ∅), ∅])] }).lookup "train" =
      some [insert 2 (insert 1 ∅), ∅] ∧
    (∀ i ∈ [(0 : Int)], 0 ≤ i ∧ i < (2 : Int)) ∧
    (∀ x ∈ [0, 1, 2, 3, 4], x < 5) ∧
    (∀ i ∈ [(0 : Int)], ∃ x ∈ [0, 1, 2, 3, 4],
      x ∉ [insert 2 (insert 1 (∅ : Finset Nat)), ∅].getD i.toNat ∅) ∧
    (∃ items s', sampleByUserIds
        { nUsers := 2, nItems := 5, phases := ["train"],
          pool := [0, 1, 2, 3, 4], randomPr := 0,
          usedItemId := [("train", [insert 2 (insert 1 ∅), ∅])] }
        "train" [0] 3 = .ok items s' ∧
      items.length = [(0 : Int)].length * 3 ∧
      ∀ u j, u < [(0 : Int)].length → j < 3 →
        items.getD (u * 3 + j) 0 < 5 ∧
        items.getD (u * 3 + j) 0 ∉
          [insert 2 (insert 1 (∅ : Finset Nat)), ∅].getD ([(0 : Int)].getD u 0).toNat ∅) := by
  exact ⟨by decide, by decide, by decide, by decide,
    C1_amended_sample
      { nUsers := 2, nItems := 5, phases := ["train"],
        pool := [0, 1, 2, 3, 4], randomPr := 0,
        usedItemId := [("train", [insert 2 (insert 1 ∅), ∅])] }
      "train" [0] 3 [insert 2 (insert 1 ∅), ∅]
      (by decide) (by decide) (by decide) (by decide)⟩

/-- Counterexample to claim C2 as stated: `user_id = -1` is outside
`[0, n_users)` but raises no error — numpy's negative indexing silently
aliases it to user `n_users - 1`, and the call returns normally. -/
theorem C2_counterexample :
    (-1 : Int) < 0 ∧
    (sampleByUserIds
      { nUsers := 2, nItems := 5, phases := ["train"],
        pool := [0, 1, 2, 3, 4], randomPr := 0,
        usedItemId := [("train", [insert 2 (insert 1 ∅), ∅])] }
      "train" [-1] 1).isErr = false ∧
    (sampleByUserIds
      { nUsers := 2, nItems := 5, phases := ["train"],
        pool := [0, 1, 2, 3, 4], randomPr := 0,
        usedItemId := [("train", [insert 2 (insert 1 ∅), ∅])] }
      "train" [-1] 1).items = [0] := by
  exact ⟨by decide, by decide, by decide⟩

/-- Claim C2 (amended): an unknown phase raises a value error embedding
the phase; a user id below `-n_users` or at/above `n_users` triggers the
numpy `IndexError`, which is reported as a value error embedding the
first user id outside `[0, n_users)` in list order; but a user id in
`[-n_users, 0)` alone raises nothing — numpy aliases it to user
`n_users + id` — and with a declared phase and all ids in
`[-n_users, n_users)` no error is raised at all. -/
theorem C2_amended_errors (s : SamplerState) (phase : String) (userIds : List Int)
    (num : Nat) :
    (s.usedItemId.lookup phase = none → phase ∉ s.phases →
      sampleByUserIds s phase userIds num = .errPhaseNotExist phase) ∧
    (∀ arr, s.usedItemId.lookup phase = some arr →
      (∃ i ∈ userIds, i < -(s.nUsers : Int) ∨ (s.nUsers : Int) ≤ i) →
      ∃ j, userIds.find? (fun i => decide (i < 0 ∨ (s.nUsers : Int) ≤ i)) = some j ∧
        sampleByUserIds s phase userIds num = .errUserIdNotExist j) ∧
    (∀ arr, s.usedItemId.lookup phase = some arr →
      (∀ i ∈ userIds, -(s.nUsers : Int) ≤ i ∧ i < (s.nUsers : Int)) →
      (sampleByUserIds s phase userIds num).isErr = false) := by
  refine ⟨?_, ?_, ?_⟩
  · intro hnone hnotin
    rw [sampleByUserIds, hnone]
    simp [hnotin]
  · rintro arr harr ⟨i, hi, hbad⟩
    have hnone : npIndex s.nUsers arr userIds = none :=
      (npIndex_eq_none s.nUsers arr userIds).mpr ⟨i, hi, by omega⟩
    have hsome : (userIds.find?
        (fun i' => decide (i' < 0 ∨ (s.nUsers : Int) ≤ i'))).isSome := by
      rw [List.find?_isSome]
      exact ⟨i, hi, by simpa using by omega⟩
    obtain ⟨j, hj⟩ := Option.isSome_iff_exists.mp hsome
    refine ⟨j, hj, ?_⟩
    rw [sampleByUserIds, harr]
    simp only [hnone, hj]
  · intro arr harr hvalid
    rw [sampleByUserIds, harr]
    cases hidx : npIndex s.nUsers arr userIds with
    | none =>
      obtain ⟨i, hi, hbad⟩ := (npIndex_eq_none s.nUsers arr userIds).mp hidx
      exact absurd (hvalid i hi) hbad
    | some seenList =>
      cases hloop : drawLoop s.pool (npRepeat seenList num) s.randomPr with
      | none => simp [hidx, hloop, SampleResult.isErr]
      | some r => simp [hidx, hloop, SampleResult.isErr]

/-- Witness for the amended C2: the unknown phase "valid", the
out-of-range user id `5` (reported), and the in-range call `[0, -1]`
(no error) on the scenario sampler. -/
theorem C2_witness :
    ((SamplerState.usedItemId
        { nUsers := 2, nItems := 5, phases := ["train"],
          pool := [0, 1, 2, 3, 4], randomPr := 0,
          usedItemId := [("train", [insert 2 (insert 1 ∅), ∅])] }).lookup "valid" = none ∧
      "valid" ∉ ["train"] ∧
      sampleByUserIds
        { nUsers := 2, nItems := 5, phases := ["train"],
          pool := [0, 1, 2, 3, 4], randomPr := 0,
          usedItemId := [("train", [insert 2 (insert 1 ∅), ∅])] }
        "valid" [0] 1 = .errPhaseNotExist "valid") ∧
    (∃ j, [(5 : Int)].find? (fun i => decide (i < 0 ∨ (2 : Int) ≤ i)) = some j ∧
      sampleByUserIds
        { nUsers := 2, nItems := 5, phases := ["train"],
          pool := [0, 1, 2, 3, 4], randomPr := 0,
          usedItemId := [("train", [insert 2 (insert 1 ∅), ∅])] }
        "train" [5] 1 = .errUserIdNotExist j) ∧
    (sampleByUserIds
      { nUsers := 2, nItems := 5, phases := ["train"],
        pool := [0, 1, 2, 3, 4], randomPr := 0,
        usedItemId := [("train", [insert 2 (insert 1 ∅), ∅])] }
      "train" [0, -1] 1).isErr = false := by
  refine ⟨⟨by decide, by decide, ?_⟩, ?_, ?_⟩
  · exact (C2_amended_errors
      { nUsers := 2, nItems := 5, phases := ["train"],
        pool := [0, 1, 2, 3, 4], randomPr := 0,
        usedItemId := [("train", [insert 2 (insert 1 ∅), ∅])] }
      "valid" [0] 1).1 (by decide) (by decide)
  · exact (C2_amended_errors
      { nUsers := 2, nItems := 5, phases := ["train"],
        pool := [0, 1, 2, 3, 4], randomPr := 0,
        usedItemId := [("train", [insert 2 (insert 1 ∅), ∅])] }
      "train" [5] 1).2.1 [insert 2 (insert 1 ∅), ∅]
      (by decide) ⟨5, by decide, by decide⟩
  · exact (C2_amended_errors
      { nUsers := 2, nItems := 5, phases := ["train"],
        pool := [0, 1, 2, 3, 4], randomPr := 0,
        usedItemId := [("train", [insert 2 (insert 1 ∅), ∅])] }
      "train" [0, -1] 1).2.2 [insert 2 (insert 1 ∅), ∅]
      (by decide) (by decide)

theorem addInter_length (cur : List (Finset Nat)) (p : Nat × Nat) :
    (addInter cur p).length = cur.length := by
  simp [addInter]

theorem addInter_getD (cur : List (Finset Nat)) (p : Nat × Nat) (u : Nat)
    (hu : u < cur.length) :
    (addInter cur p).getD u ∅ =
      if p.1 = u then insert p.2 (cur.getD u ∅) else cur.getD u ∅ := by
  have hu' : u < (cur.set p.1 (insert p.2 (cur.getD p.1 ∅))).length := by simpa using hu
  rw [addInter, List.getD_eq_getElem _ _ hu', List.getElem_set,
    List.getD_eq_getElem _ _ hu]
  by_cases h : p.1 = u
  · subst h; simp [List.getD, List.getElem?_eq_getElem hu]
  · simp [h]

theorem phaseSeen_length (last : List (Finset Nat)) (ds : Dataset) :
    (phaseSeen last ds).length = last.length := by
  rw [phaseSeen]
  generalize last = cur
  induction ds.inter_feat generalizing cur with
  | nil => rfl
  | cons p l ih => rw [List.foldl_cons, ih, addInter_length]

theorem foldl_addInter_getD (l : List (Nat × Nat)) (cur : List (Finset Nat)) (u : Nat)
    (hu : u < cur.length) :
    (l.foldl addInter cur).getD u ∅ =
      cur.getD u ∅ ∪ ((l.filter (fun p => p.1 = u)).map Prod.snd).toFinset := by
  induction l generalizing cur with
  | nil => simp
  | cons p l ih =>
    rw [List.foldl_cons, ih (addInter cur p) (by rw [addInter_length]; exact hu),
      addInter_getD cur p u hu]
    by_cases h : p.1 = u
    · rw [if_pos h, List.filter_cons_of_pos (by simp [h]), List.map_cons,
        List.toFinset_cons, Finset.insert_union, Finset.union_insert]
    · rw [if_neg h, List.filter_cons_of_neg (by simp [h])]

theorem phaseSeen_getD (last : List (Finset Nat)) (ds : Dataset) (u : Nat)
    (hu : u < last.length) :
    (phaseSeen last ds).getD u ∅ = last.getD u ∅ ∪ ds.interOf u :=
  foldl_addInter_getD ds.inter_feat last u hu

theorem buildUsedAux_getD (pds : List (String × Dataset)) (last : List (Finset Nat))
    (k u : Nat) (hk : k < pds.length) (hu : u < last.length) :
    ((buildUsedAux last pds).getD k ("", [])).2.getD u ∅ =
      last.getD u ∅ ∪
        ((pds.take (k + 1)).map (fun pd => pd.2.interOf u)).foldr (· ∪ ·) ∅ := by
  induction pds generalizing last k with
  | nil => simp at hk
  | cons pd rest ih =>
    cases k with
    | zero =>
      simp only [buildUsedAux, List.getD_cons_zero, List.take_succ_cons,
        List.take_zero, List.map_cons, List.map_nil, List.foldr_cons, List.foldr_nil]
      rw [phaseSeen_getD last pd.2 u hu, Finset.union_empty]
    | succ k =>
      simp only [buildUsedAux, List.getD_cons_succ, List.take_succ_cons,
        List.map_cons, List.foldr_cons]
      rw [ih (phaseSeen last pd.2) k (by simpa using hk)
        (by rw [phaseSeen_length]; exact hu),
        phaseSeen_getD last pd.2 u hu, Finset.union_assoc]

theorem buildUsedAux_mono (pds : List (String × Dataset)) (last : List (Finset Nat))
    (k u : Nat) (hk : k + 1 < pds.length) (hu : u < last.length) :
    ((buildUsedAux last pds).getD k ("", [])).2.getD u ∅ ⊆
      ((buildUsedAux last pds).getD (k + 1) ("", [])).2.getD u ∅ := by
  induction pds generalizing last k with
  | nil => simp at hk
  | cons pd rest ih =>
    cases k with
    | zero =>
      simp only [buildUsedAux, List.getD_cons_zero, List.getD_cons_succ]
      rw [buildUsedAux_getD rest (phaseSeen last pd.2) 0 u (by simpa using hk)
        (by rw [phaseSeen_length]; exact hu)]
      exact Finset.subset_union_left
    | succ k =>
      simp only [buildUsedAux, List.getD_cons_succ]
      exact ih (phaseSeen last pd.2) k (by simpa using hk)
        (by rw [phaseSeen_length]; exact hu)

theorem sample_preserves_state (s : SamplerState) (phase : String)
    (userIds : List Int) (num : Nat) (items : List Nat) (s' : SamplerState)
    (h : sampleByUserIds s phase userIds num = .ok items s') :
    s'.usedItemId = s.usedItemId ∧ s'.pool = s.pool ∧ s'.phases = s.phases ∧
      s'.nUsers = s.nUsers ∧ s'.nItems = s.nItems := by
  rw [sampleByUserIds] at h
  split at h
  · split_ifs at h
  · split at h
    · split at h <;> simp at h
    · split at h
      · simp at h
      · cases h
        exact ⟨rfl, rfl, rfl, rfl, rfl⟩

/-- Claim C4: for every user `u < n_users`, the cumulative seen set
stored for the `k`-th declared phase equals the union of that user's
interacted item sets over phases `0..k`; the set stored for phase
`k + 1` is a superset of the set for phase `k`; the seen sets are never
mutated after construction — `sample_by_user_ids` only advances the
cursor — and `Sampler.__init__` stores exactly `buildUsed`. -/
theorem C4_cumulative_seen_invariant (nUsers : Nat) (phases : List String)
    (datasets : List Dataset) (u : Nat) (hu : u < nUsers) :
    (∀ k, k < (phases.zip datasets).length →
      ((buildUsed nUsers phases datasets).getD k ("", [])).2.getD u ∅ =
        (((phases.zip datasets).take (k + 1)).map
          (fun pd => pd.2.interOf u)).foldr (· ∪ ·) ∅) ∧
    (∀ k, k + 1 < (phases.zip datasets).length →
      ((buildUsed nUsers phases datasets).getD k ("", [])).2.getD u ∅ ⊆
        ((buildUsed nUsers phases datasets).getD (k + 1) ("", [])).2.getD u ∅) ∧
    (∀ s phase userIds num items s',
      sampleByUserIds s phase userIds num = .ok items s' →
      s'.usedItemId = s.usedItemId) ∧
    (∀ distribution shuffle s,
      mkSampler phases datasets distribution shuffle = .ok s →
      s.usedItemId = buildUsed (datasets.headD ⟨0, 0, []⟩).user_num phases datasets) := by
  have hlen : u < (List.replicate nUsers (∅ : Finset Nat)).length := by simpa using hu
  refine ⟨?_, ?_, ?_, ?_⟩
  · intro k hk
    rw [buildUsed, buildUsedAux_getD _ _ k u hk hlen]
    rw [List.getD_eq_getElem _ _ hlen]
    simp
  · intro k hk
    exact buildUsedAux_mono _ _ k u hk hlen
  · intro s phase userIds num items s' h
    exact (sample_preserves_state s phase userIds num items s' h).1
  · intro distribution shuffle s h
    rw [mkSampler] at h
    split_ifs at h <;> cases h <;> rfl

/-- Witness for C4: user `0` of a two-phase sampler — train interactions
`{(0, 1)}`, test interactions `{(0, 2)}`. -/
theorem C4_witness :
    0 < 2 ∧
    ((∀ k, k < ((["train", "test"]).zip
        [(⟨2, 5, [(0, 1)]⟩ : Dataset), ⟨2, 5, [(0, 2)]⟩]).length →
      ((buildUsed 2 ["train", "test"]
          [⟨2, 5, [(0, 1)]⟩, ⟨2, 5, [(0, 2)]⟩]).getD k ("", [])).2.getD 0 ∅ =
        ((((["train", "test"]).zip
            [(⟨2, 5, [(0, 1)]⟩ : Dataset), ⟨2, 5, [(0, 2)]⟩]).take (k + 1)).map
          (fun pd => pd.2.interOf 0)).foldr (· ∪ ·) ∅) ∧
    (∀ k, k + 1 < ((["train", "test"]).zip
        [(⟨2, 5, [(0, 1)]⟩ : Dataset), ⟨2, 5, [(0, 2)]⟩]).length →
      ((buildUsed 2 ["train", "test"]
          [⟨2, 5, [(0, 1)]⟩, ⟨2, 5, [(0, 2)]⟩]).getD k ("", [])).2.getD 0 ∅ ⊆
        ((buildUsed 2 ["train", "test"]
          [⟨2, 5, [(0, 1)]⟩, ⟨2, 5, [(0, 2)]⟩]).getD (k + 1) ("", [])).2.getD 0 ∅) ∧
    (∀ s phase userIds num items s',
      sampleByUserIds s phase userIds num = .ok items s' →
      s'.usedItemId = s.usedItemId) ∧
    (∀ distribution shuffle s,
      mkSampler ["train", "test"] [⟨2, 5, [(0, 1)]⟩, ⟨2, 5, [(0, 2)]⟩]
          distribution shuffle = .ok s →
      s.usedItemId = buildUsed
        (([(⟨2, 5, [(0, 1)]⟩ : Dataset), ⟨2, 5, [(0, 2)]⟩]).headD ⟨0, 0, []⟩).user_num
        ["train", "test"] [⟨2, 5, [(0, 1)]⟩, ⟨2, 5, [(0, 2)]⟩])) :=
  ⟨by decide, C4_cumulative_seen_invariant 2 ["train", "test"]
    [⟨2, 5, [(0, 1)]⟩, ⟨2, 5, [(0, 2)]⟩] 0 (by decide)⟩

theorem popularityPool_foldl (datasets : List Dataset) (acc : List Nat) :
    datasets.foldl (fun acc' ds => acc' ++ ds.inter_feat.map Prod.snd) acc =
      acc ++ (datasets.map (fun ds => ds.inter_feat.map Prod.snd)).flatten := by
  induction datasets generalizing acc with
  | nil => simp
  | cons ds rest ih => simp [ih, List.append_assoc]

/-- Claim C5: the uniform pool (before shuffling) holds every item id in
`[0, n_items)` exactly once and nothing else; the popularity pool is the
concatenation of the datasets' item-id columns (so as a multiset it
equals it too); an unknown distribution name makes construction fail. -/
theorem C5_pool_construction (nItems : Nat) (datasets : List Dataset)
    (phases : List String) (distribution : String) (shuffle : List Nat → List Nat) :
    (∀ i, (uniformPool nItems).count i = if i < nItems then 1 else 0) ∧
    (popularityPool datasets =
      (datasets.map (fun ds => ds.inter_feat.map Prod.snd)).flatten) ∧
    ((popularityPool datasets : Multiset Nat) =
      ((datasets.map (fun ds => ds.inter_feat.map Prod.snd)).flatten : Multiset Nat)) ∧
    (distribution ≠ "uniform" → distribution ≠ "popularity" →
      mkSampler phases datasets distribution shuffle =
        .error ("Distribution [" ++ distribution ++ "] should in [uniform, popularity]")) := by
  have hpop : popularityPool datasets =
      (datasets.map (fun ds => ds.inter_feat.map Prod.snd)).flatten := by
    rw [popularityPool, popularityPool_foldl, List.nil_append]
  refine ⟨?_, hpop, by rw [hpop], ?_⟩
  · intro i
    rw [uniformPool]
    split_ifs with h
    · exact List.count_eq_one_of_mem (List.nodup_range nItems) (List.mem_range.mpr h)
    · exact List.count_eq_zero.mpr (by simpa using h)
  · intro h1 h2
    rw [mkSampler, if_pos ⟨h1, h2⟩]

/-- Witness for C5 with the unsupported distribution name "gaussian". -/
theorem C5_witness :
    ("gaussian" ≠ "uniform") ∧ ("gaussian" ≠ "popularity") ∧
    ((∀ i, (uniformPool 3).count i = if i < 3 then 1 else 0) ∧
      (popularityPool [⟨2, 5, [(0, 1)]⟩] =
        (([(⟨2, 5, [(0, 1)]⟩ : Dataset)]).map
          (fun ds => ds.inter_feat.map Prod.snd)).flatten) ∧
      ((popularityPool [⟨2, 5, [(0, 1)]⟩] : Multiset Nat) =
        ((([(⟨2, 5, [(0, 1)]⟩ : Dataset)]).map
          (fun ds => ds.inter_feat.map Prod.snd)).flatten : Multiset Nat)) ∧
      ("gaussian" ≠ "uniform" → "gaussian" ≠ "popularity" →
        mkSampler ["train"] [⟨2, 5, [(0, 1)]⟩] "gaussian" (fun l => l) =
          .error ("Distribution [" ++ "gaussian" ++ "] should in [uniform, popularity]"))) :=
  ⟨by decide, by decide,
    C5_pool_construction 3 [⟨2, 5, [(0, 1)]⟩] ["train"] "gaussian" (fun l => l)⟩

end RecBox

namespace RecBole

/-- Claim C6: constructing FISSA with a `loss_type` outside
`{BPR, CE}` — e.g. "MSE" — fails with a configuration error raised
during construction, so no model value exists and no forward pass can
run; "BPR" selects the pairwise BPR loss and "CE" the listwise
cross-entropy loss, stored once in the immutable model record. -/
theorem C6_loss_type_validation (lossType : String) :
    (lossType ≠ "BPR" → lossType ≠ "CE" →
      mkFissa lossType = .error "Make sure loss_type in [BPR, CE]!") ∧
    mkFissa "BPR" = .ok { lossFct := .bpr } ∧
    mkFissa "CE" = .ok { lossFct := .ce } := by
  refine ⟨?_, rfl, rfl⟩
  intro h1 h2
  rw [mkFissa, if_neg h1, if_neg h2]

/-- Witness for C6 at `loss_type = "MSE"`. -/
theorem C6_witness :
    ("MSE" ≠ "BPR") ∧ ("MSE" ≠ "CE") ∧
    (("MSE" ≠ "BPR" → "MSE" ≠ "CE" →
        mkFissa "MSE" = .error "Make sure loss_type in [BPR, CE]!") ∧
      mkFissa "BPR" = .ok { lossFct := .bpr } ∧
      mkFissa "CE" = .ok { lossFct := .ce }) :=
  ⟨by decide, by decide, C6_loss_type_validation "MSE"⟩

/-- Claim C9: `get_attention_mask` marks a position attendable iff its
item id is nonzero — additive bias `0` there and `-10000` at padding —
and the `[B, 1, 1, L]` broadcast makes the bias independent of the head
and of the query position, so the mask is not causal: the bias any query
(earlier or later) puts on a valid key is `0`. -/
theorem C9_attention_mask {B L : ℕ} (itemSeq : Fin B → Fin L → ℕ) (H : ℕ)
    (b : Fin B) (h : Fin H) (q j : Fin L) :
    (getAttentionMask itemSeq H b h q j =
      if itemSeq b j ≠ 0 then 0 else -10000) ∧
    (∀ h' q', getAttentionMask itemSeq H b h' q' j =
      getAttentionMask itemSeq H b h q j) := by
  constructor
  · rw [getAttentionMask, attnBias]
    by_cases hz : itemSeq b j = 0
    · simp [hz]
    · have hp : 0 < itemSeq b j := Nat.pos_of_ne_zero hz
      simp [hz, hp]
  · intro h' q'
    rfl

theorem sigmoid_pos (x : ℝ) : 0 < sigmoid x := by
  rw [sigmoid]
  positivity

theorem sigmoid_lt_one (x : ℝ) : sigmoid x < 1 := by
  rw [sigmoid, div_lt_one (by positivity)]
  have := Real.exp_pos (-x)
  linarith

/-- Claim C7: entry `(b, c, d)` of `cal_final`'s `[B, C, D]` output is
`g * x_l + (1 - g) * y` elementwise, where the per-candidate scalar gate
`g ∈ (0, 1)` is the sigmoid of the linear gate (input size `3D`) applied
to the concatenation of the last item embedding, `y`, and that
candidate's embedding; with `C = 1` this is exactly the single
candidate's gate. -/
theorem C7_fusion_gate {B C D : ℕ} (p : GateParams D)
    (seq_x seq_y last : Fin B → Fin D → ℝ)
    (cand : Fin B → Fin C → Fin D → ℝ) (b : Fin B) (c : Fin C) (d : Fin D) :
    ∃ g : ℝ,
      g = sigmoid ((∑ i : Fin D, p.weight (Fin.castAdd D (Fin.castAdd D i)) * last b i) +
        (∑ i : Fin D, p.weight (Fin.castAdd D (Fin.natAdd D i)) * seq_y b i) +
        (∑ i : Fin D, p.weight (Fin.natAdd (D + D) i) * cand b c i) + p.bias) ∧
      0 < g ∧ g < 1 ∧
      calFinal p seq_x seq_y last cand b c d =
        g * seq_x b d + (1 - g) * seq_y b d := by
  refine ⟨gateValue p (cat2 (cat2 (last b) (seq_y b)) (cand b c)), ?_,
    sigmoid_pos _, sigmoid_lt_one _, by rw [calFinal]; ring⟩
  rw [gateValue]
  congr 1
  rw [Fin.sum_univ_add, Fin.sum_univ_add]
  simp only [cat2, Fin.addCases_left, Fin.addCases_right]

/-- Claim C10: in evaluation mode `forward` is a deterministic function
of `(item_seq, item_seq_len)` (dropout disabled), and for any such
forward function the score `predict` computes for the test item equals
that item's entry of `full_sort_predict`'s score vector on the same
sequence — the gate and score of a candidate slot depend only on that
slot's embedding, so single-candidate and full-catalog scoring agree. -/
theorem C10_predict_consistency {B L D N : ℕ} (p : GateParams D)
    (fwd : (Fin B → Fin L → Fin N) → (Fin B → Fin L) →
      (Fin B → Fin D → ℝ) × (Fin B → Fin D → ℝ))
    (itemEmb : Fin N → Fin D → ℝ) (itemSeq : Fin B → Fin L → Fin N)
    (lastIdx : Fin B → Fin L) (testItem : Fin B → Fin N) (b : Fin B) :
    predictScore p fwd itemEmb itemSeq lastIdx testItem b =
      fullSortScores p fwd itemEmb itemSeq lastIdx b (testItem b) := rfl

theorem hardScore_congr {H dh D F L : ℕ} (p : EncoderLayerParams H dh D F)
    (h : Fin H) (att : Fin L → Bool) (x x' : Fin L → Fin D → ℝ)
    (hagree : ∀ j, att j = true → x j = x' j) (i j : Fin L)
    (hi : att i = true) (hj : att j = true) :
    hardScore p h x i j = hardScore p h x' i j := by
  rw [hardScore, hardScore, hagree i hi, hagree j hj]

theorem hardWeights_congr {H dh D F L : ℕ} (p : EncoderLayerParams H dh D F)
    (h : Fin H) (att : Fin L → Bool) (x x' : Fin L → Fin D → ℝ)
    (hagree : ∀ j, att j = true → x j = x' j) (i : Fin L) (hi : att i = true)
    (j : Fin L) :
    hardWeights att (hardScore p h x i) j = hardWeights att (hardScore p h x' i) j := by
  rw [hardWeights, hardWeights]
  by_cases hj : att j = true
  · rw [if_pos hj, if_pos hj, hardScore_congr p h att x x' hagree i j hi hj]
    congr 1
    apply Finset.sum_congr rfl
    intro k _
    by_cases hk : att k = true
    · rw [if_pos hk, if_pos hk, hardScore_congr p h att x x' hagree i k hi hk]
    · rw [if_neg hk, if_neg hk]
  · rw [if_neg hj, if_neg hj]

theorem hardAttnHead_congr {H dh D F L : ℕ} (p : EncoderLayerParams H dh D F)
    (h : Fin H) (att : Fin L → Bool) (x x' : Fin L → Fin D → ℝ)
    (hagree : ∀ j, att j = true → x j = x' j) (i : Fin L) (hi : att i = true)
    (e : Fin dh) :
    hardAttnHead p h att x i e = hardAttnHead p h att x' i e := by
  rw [hardAttnHead, hardAttnHead]
  apply Finset.sum_congr rfl
  intro j _
  by_cases hj : att j = true
  · rw [hardWeights_congr p h att x x' hagree i hi j, hagree j hj]
  · have z1 : hardWeights att (hardScore p h x i) j = 0 := by
      rw [hardWeights, if_neg hj]
    have z2 : hardWeights att (hardScore p h x' i) j = 0 := by
      rw [hardWeights, if_neg hj]
    rw [z1, z2, zero_mul, zero_mul]

theorem hardEncoderLayer_congr {H dh D F L : ℕ} (p : EncoderLayerParams H dh D F)
    (act : ℝ → ℝ) (att : Fin L → Bool) (x x' : Fin L → Fin D → ℝ)
    (hagree : ∀ j, att j = true → x j = x' j) (i : Fin L) (hi : att i = true)
    (d : Fin D) :
    hardEncoderLayer p act att x i d = hardEncoderLayer p act att x' i d := by
  have hmha : hardMhaOut p att x i = hardMhaOut p att x' i := by
    funext d'
    rw [hardMhaOut, hardMhaOut]
    apply Finset.sum_congr rfl
    intro h _
    apply Finset.sum_congr rfl
    intro e _
    rw [hardAttnHead_congr p h att x x' hagree i hi e]
  rw [hardEncoderLayer, hardEncoderLayer, hmha, hagree i hi]

/-- Claim C8 (amended): the additive `-10000` mask attenuates rather than
blocks, so with the code's mask padding content can change `x_l` (see the
counterexample, where a nonzero id at the padding position even
re-enables attention to it).  Exact invariance holds only under
idealized hard masking: when masked positions receive attention weight
exactly `0` in every layer, the encoder stack's output at every
attendable position — in particular `x_l`, gathered at the attendable
index `item_seq_len - 1` — is unchanged when the inputs at masked
positions change. -/
theorem C8_amended_hard_mask {H dh D F L : ℕ}
    (ps : List (EncoderLayerParams H dh D F)) (act : ℝ → ℝ)
    (att : Fin L → Bool) (x x' : Fin L → Fin D → ℝ)
    (hagree : ∀ j, att j = true → x j = x' j) (i : Fin L) (hi : att i = true) :
    hardEncoderStack ps act att x i = hardEncoderStack ps act att x' i := by
  induction ps generalizing x x' with
  | nil => exact hagree i hi
  | cons p rest ih =>
    show hardEncoderStack rest act att
        (fun i' d => hardEncoderLayer p act att x i' d) i =
      hardEncoderStack rest act att
        (fun i' d => hardEncoderLayer p act att x' i' d) i
    exact ih _ _ (fun j hj => funext fun d =>
      hardEncoderLayer_congr p act att x x' hagree j hj d)

/-- Witness for the amended C8: one `cexLayer` layer, position 0
attendable and position 1 masked, two inputs that agree at position 0
and differ at the masked position 1. -/
theorem C8_witness :
    (∀ j : Fin 2, (![true, false] : Fin 2 → Bool) j = true →
      (fun (_ : Fin 2) (_ : Fin 2) => (1 : ℝ)) j =
        (fun (i : Fin 2) (_ : Fin 2) => if i = 0 then (1 : ℝ) else 5) j) ∧
    (![true, false] : Fin 2 → Bool) 0 = true ∧
    hardEncoderStack [cexLayer] id ![true, false] (fun _ _ => (1 : ℝ)) 0 =
      hardEncoderStack [cexLayer] id ![true, false]
        (fun i _ => if i = 0 then (1 : ℝ) else 5) 0 := by
  have hagree : ∀ j : Fin 2, (![true, false] : Fin 2 → Bool) j = true →
      (fun (_ : Fin 2) (_ : Fin 2) => (1 : ℝ)) j =
        (fun (i : Fin 2) (_ : Fin 2) => if i = 0 then (1 : ℝ) else 5) j := by
    intro j hj
    fin_cases j
    · funext d; simp
    · simp [Matrix.cons_val_one, Matrix.head_cons] at hj
  exact ⟨hagree, rfl,
    C8_amended_hard_mask [cexLayer] id ![true, false] _ _ hagree 0 rfl⟩

theorem cex_score (x : Fin 2 → Fin 2 → ℝ) (mask : Fin 2 → ℝ) (i j : Fin 2) :
    attnScore cexLayer 0 x mask i j = mask j := by
  rw [attnScore]
  simp [cexLayer, dotProd, Fin.sum_univ_two]

theorem cex_value (x : Fin 2 → Fin 2 → ℝ) (j e : Fin 2) :
    dotProd (cexLayer.wv 0 e) (x j) = x j e := by
  rw [dotProd, Fin.sum_univ_two]
  fin_cases e <;> simp [cexLayer]

theorem cex_head (x : Fin 2 → Fin 2 → ℝ) (mask : Fin 2 → ℝ) (i e : Fin 2) :
    attnHead cexLayer 0 x mask i e =
      (Real.exp (mask 0) * x 0 e + Real.exp (mask 1) * x 1 e) /
        (Real.exp (mask 0) + Real.exp (mask 1)) := by
  rw [attnHead, Fin.sum_univ_two, cex_value, cex_value]
  simp only [softmaxVec, cex_score, Fin.sum_univ_two]
  rw [div_mul_eq_mul_div, div_mul_eq_mul_div, div_add_div_same]

theorem cex_ffn (u : Fin 2 → ℝ) (d : Fin 2) : ffnOut cexLayer id u d = 0 := by
  rw [ffnOut, Fin.sum_univ_one]
  simp [cexLayer]

theorem cex_mha (x : Fin 2 → Fin 2 → ℝ) (mask : Fin 2 → ℝ) (i d : Fin 2) :
    mhaOut cexLayer x mask i d = attnHead cexLayer 0 x mask i d := by
  rw [mhaOut, Fin.sum_univ_one, Fin.sum_univ_two]
  fin_cases d <;> simp [cexLayer]

theorem cex_layer_eval (x : Fin 2 → Fin 2 → ℝ) (mask : Fin 2 → ℝ) (i d : Fin 2) :
    encoderLayer cexLayer id mask x i d = x i d + attnHead cexLayer 0 x mask i d := by
  rw [encoderLayer]
  simp only [cex_mha, cex_ffn, add_zero]

theorem cexA : forwardXl cexParams ![1, 0] 0 0 = 2 := by
  have hinp : (fun j => layerNorm cexParams.lnGamma cexParams.lnBeta cexParams.lnEps
      (fun d => cexParams.itemEmb ((![1, 0] : Fin 2 → Fin 3) j) d + cexParams.posEmb j d)) =
      ![![(1 : ℝ), -1], ![1, -1]] := by
    funext j d
    fin_cases j <;> fin_cases d <;>
      norm_num [layerNorm, vecMean, vecVar, Fin.sum_univ_two, cexParams,
        Matrix.cons_val_zero, Matrix.cons_val_one, Matrix.head_cons, Real.sqrt_one]
  have hmask : (fun j => attnBias (((![1, 0] : Fin 2 → Fin 3) j) : ℕ)) = ![0, -10000] := by
    funext j
    fin_cases j <;>
      norm_num [attnBias, Matrix.cons_val_zero, Matrix.cons_val_one, Matrix.head_cons]
  show encoderStack cexParams.layers cexParams.act
      (fun j => attnBias (((![1, 0] : Fin 2 → Fin 3) j) : ℕ))
      (fun j => layerNorm cexParams.lnGamma cexParams.lnBeta cexParams.lnEps
        (fun d => cexParams.itemEmb ((![1, 0] : Fin 2 → Fin 3) j) d + cexParams.posEmb j d)) 0 0 = 2
  rw [hinp, hmask]
  show encoderLayer cexLayer id ![0, -10000] ![![(1 : ℝ), -1], ![1, -1]] 0 0 = 2
  rw [cex_layer_eval, cex_head]
  norm_num [Matrix.cons_val_zero, Matrix.cons_val_one, Matrix.head_cons, Real.exp_zero]
  rw [div_self (by positivity)]
  norm_num

theorem cexB : forwardXl cexParams ![1, 2] 0 0 = 1 := by
  have hinp : (fun j => layerNorm cexParams.lnGamma cexParams.lnBeta cexParams.lnEps
      (fun d => cexParams.itemEmb ((![1, 2] : Fin 2 → Fin 3) j) d + cexParams.posEmb j d)) =
      ![![(1 : ℝ), -1], ![-1, 1]] := by
    funext j d
    fin_cases j <;> fin_cases d <;>
      norm_num [layerNorm, vecMean, vecVar, Fin.sum_univ_two, cexParams,
        Matrix.cons_val_zero, Matrix.cons_val_one, Matrix.head_cons, Real.sqrt_one]
  have hmask : (fun j => attnBias (((![1, 2] : Fin 2 → Fin 3) j) : ℕ)) = ![0, 0] := by
    funext j
    fin_cases j <;>
      norm_num [attnBias, Matrix.cons_val_zero, Matrix.cons_val_one, Matrix.head_cons]
  show encoderStack cexParams.layers cexParams.act
      (fun j => attnBias (((![1, 2] : Fin 2 → Fin 3) j) : ℕ))
      (fun j => layerNorm cexParams.lnGamma cexParams.lnBeta cexParams.lnEps
        (fun d => cexParams.itemEmb ((![1, 2] : Fin 2 → Fin 3) j) d + cexParams.posEmb j d)) 0 0 = 1
  rw [hinp, hmask]
  show encoderLayer cexLayer id ![0, 0] ![![(1 : ℝ), -1], ![-1, 1]] 0 0 = 1
  rw [cex_layer_eval, cex_head]
  norm_num [Matrix.cons_val_zero, Matrix.cons_val_one, Matrix.head_cons, Real.exp_zero]

/-- Counterexample to claim C8 as stated: two sequences of true length
`k = 1` that agree at the single real position 0 (item 1) and differ
only in the content of the padding position 1 (id 0 versus id 2) give
different `x_l` (2 versus 1): changing the padding content flipped that
position's additive bias from `-10000` to `0`, so the masked encoder
output at the gather index `k - 1 = 0` changed — padding content does
influence `x_l`. -/
theorem C8_counterexample :
    (![1, 0] : Fin 2 → Fin 3) 0 = (![1, 2] : Fin 2 → Fin 3) 0 ∧
    ((![1, 0] : Fin 2 → Fin 3) 1 : ℕ) = 0 ∧
    forwardXl cexParams ![1, 0] 0 0 = 2 ∧
    forwardXl cexParams ![1, 2] 0 0 = 1 ∧
    forwardXl cexParams ![1, 0] 0 0 ≠ forwardXl cexParams ![1, 2] 0 0 := by
  refine ⟨by decide, by decide, cexA, cexB, ?_⟩
  rw [cexA, cexB]
  norm_num

end RecBole
